import Mathlib

/-!
Verification development for the `mud` repository (Maximal Updated Density
equations for Data-Consistent Inversion).

The repository material available here consists of the notebook
`Nonlinear_Examples.ipynb` (the exponential-decay example driving the
estimator), the CI workflow and the packaging configuration.  The core
`mud` package itself (the `mud.funs.mud_problem` estimator together with
its density machinery and the weighted-statistics utilities) is not part
of the available sources, so those components are modelled from the
specification; every such definition carries a doc comment starting with
`Modelled from the spec:`.  The notebook's own code (`exp_decay_one` and
the sequential batch loop) is embedded directly from the source.

All machine reals are modelled as rationals (`ℚ`); the transcendental
pieces (NumPy's `exp`, the Gaussian pdf and the kernel density estimator,
which the spec itself treats as an external backend, §6) are abstracted
as explicit functional parameters, since every claim under scrutiny is
structural and does not depend on their values.
-/

namespace Mud

/-! ### Weighted statistics utilities (spec §4.5) -/

/-- Modelled from the spec: effective sample size of a weight vector,
`ESS = (Σ w)² / Σ w²`, the standard importance-sampling diagnostic from
§4.5.  The weight vector of length `n` is modelled as a function
`Fin n → ℚ`. -/
def ess (n : ℕ) (w : Fin n → ℚ) : ℚ :=
  (∑ i, w i) ^ 2 / ∑ i, w i ^ 2

/-- Key algebraic identity behind the Cauchy–Schwarz bound for `ess`:
the double sum of squared pairwise differences measures the defect
`n·Σw² − (Σw)²`. -/
lemma sum_sub_sq_identity (n : ℕ) (w : Fin n → ℚ) :
    ∑ i : Fin n, ∑ j : Fin n, (w i - w j) ^ 2
      = 2 * ((n : ℚ) * (∑ i, w i ^ 2) - (∑ i, w i) ^ 2) := by
  have h1 : ∀ i : Fin n, ∑ j : Fin n, (w i - w j) ^ 2
      = (n : ℚ) * w i ^ 2 - 2 * w i * (∑ j, w j) + ∑ j, w j ^ 2 := by
    intro i
    have he : ∀ j : Fin n, (w i - w j) ^ 2
        = w i ^ 2 - 2 * w i * w j + w j ^ 2 := fun j => by ring
    rw [Finset.sum_congr rfl fun j _ => he j, Finset.sum_add_distrib,
      Finset.sum_sub_distrib, Finset.sum_const, Finset.card_univ,
      Fintype.card_fin, nsmul_eq_mul, ← Finset.mul_sum]
  rw [Finset.sum_congr rfl fun i _ => h1 i, Finset.sum_add_distrib,
    Finset.sum_sub_distrib, Finset.sum_const, Finset.card_univ,
    Fintype.card_fin, ← Finset.mul_sum, ← Finset.sum_mul]
  ring_nf
  rw [← Finset.mul_sum]
  ring

/-- The sum of squared weights of a nonnegative, not-all-zero weight
vector is positive. -/
lemma sum_sq_pos (n : ℕ) (w : Fin n → ℚ)
    (hnz : ∃ i, w i ≠ 0) : 0 < ∑ i, w i ^ 2 := by
  obtain ⟨i0, hi0⟩ := hnz
  refine Finset.sum_pos' (fun i _ => sq_nonneg _) ⟨i0, Finset.mem_univ _, ?_⟩
  exact lt_of_le_of_ne (sq_nonneg _) (Ne.symm (pow_ne_zero 2 hi0))

/-- For nonnegative weights the square of the sum dominates the sum of
squares. -/
lemma sum_sq_le_sq_sum (n : ℕ) (w : Fin n → ℚ) (hnn : ∀ i, 0 ≤ w i) :
    ∑ i, w i ^ 2 ≤ (∑ i, w i) ^ 2 := by
  rw [sq, Finset.sum_mul]
  refine Finset.sum_le_sum fun i _ => ?_
  rw [sq]
  exact mul_le_mul_of_nonneg_left
    (Finset.single_le_sum (fun j _ => hnn j) (Finset.mem_univ i)) (hnn i)

/-- Cauchy–Schwarz: the square of the sum is at most `n` times the sum of
squares. -/
lemma sq_sum_le_card_mul_sum_sq (n : ℕ) (w : Fin n → ℚ) :
    (∑ i, w i) ^ 2 ≤ (n : ℚ) * ∑ i, w i ^ 2 := by
  have h := sum_sub_sq_identity n w
  have hpos : 0 ≤ ∑ i : Fin n, ∑ j : Fin n, (w i - w j) ^ 2 :=
    Finset.sum_nonneg fun i _ => Finset.sum_nonneg fun j _ => sq_nonneg _
  nlinarith [h, hpos]

/-- Claim C4: for every nonnegative, not-all-zero weight vector of length
`N`, the effective sample size `ESS = (Σw)²/Σw²` satisfies
`1 ≤ ESS ≤ N`, and `ESS = N` holds only when all weights are equal. -/
theorem ess_bounds (n : ℕ) (w : Fin n → ℚ) (hnn : ∀ i, 0 ≤ w i)
    (hnz : ∃ i, w i ≠ 0) :
    (1 ≤ ess n w ∧ ess n w ≤ (n : ℚ)) ∧
      (ess n w = (n : ℚ) → ∀ i j, w i = w j) := by
  have hq : 0 < ∑ i, w i ^ 2 := sum_sq_pos n w hnz
  refine ⟨⟨?_, ?_⟩, ?_⟩
  · rw [ess, le_div_iff₀ hq, one_mul]
    exact sum_sq_le_sq_sum n w hnn
  · rw [ess, div_le_iff₀ hq]
    have := sq_sum_le_card_mul_sum_sq n w
    linarith
  · intro heq i j
    have hS : (∑ i, w i) ^ 2 = (n : ℚ) * ∑ i, w i ^ 2 := by
      have := (div_eq_iff (ne_of_gt hq)).mp heq
      linarith
    have hzero : ∑ a : Fin n, ∑ b : Fin n, (w a - w b) ^ 2 = 0 := by
      rw [sum_sub_sq_identity n w]
      linarith
    have h1 : ∀ a ∈ Finset.univ, ∑ b : Fin n, (w a - w b) ^ 2 = 0 :=
      (Finset.sum_eq_zero_iff_of_nonneg fun a _ =>
        Finset.sum_nonneg fun b _ => sq_nonneg _).mp hzero
    have h2 : ∀ b ∈ Finset.univ, (w i - w b) ^ 2 = 0 :=
      (Finset.sum_eq_zero_iff_of_nonneg fun b _ => sq_nonneg _).mp
        (h1 i (Finset.mem_univ i))
    have := h2 j (Finset.mem_univ j)
    have := pow_eq_zero_iff (n := 2) (by norm_num) |>.mp this
    linarith [sub_eq_zero.mp this]

/-- Concrete weight vector used by the `ess_bounds` witness. -/
def essWitnessW : Fin 2 → ℚ := ![1, 2]

/-- Witness for C4: the bounds instantiated at the concrete weight
vector `(1, 2)`. -/
theorem ess_bounds_witness :
    (1 ≤ ess 2 essWitnessW ∧ ess 2 essWitnessW ≤ (2 : ℚ)) ∧
      (ess 2 essWitnessW = (2 : ℚ) → ∀ i j, essWitnessW i = essWitnessW j) :=
  ess_bounds 2 essWitnessW (by decide) ⟨0, by decide⟩

/-! ### Discrete arg-max (first occurrence wins) -/

/-- Modelled from the spec: the discrete arg-max over a list of scores,
returning the index of the first occurrence of the maximum (spec §4.3:
"Ties broken by first occurrence in sample order"). -/
def argmaxIdx : List ℚ → ℕ
  | [] => 0
  | x :: xs => if x < xs.getD (argmaxIdx xs) x then argmaxIdx xs + 1 else 0

/-- The arg-max index of a nonempty list is in bounds. -/
lemma argmaxIdx_lt : ∀ (l : List ℚ), l ≠ [] → argmaxIdx l < l.length
  | [], h => absurd rfl h
  | x :: xs, _ => by
    rw [argmaxIdx]
    split
    · rename_i hlt
      have hxs : xs ≠ [] := by
        intro he
        subst he
        simp [List.getD] at hlt
      exact Nat.succ_lt_succ (argmaxIdx_lt xs hxs)
    · simp

/-- Every element of the list is bounded by the element at the arg-max
index. -/
lemma argmaxIdx_le : ∀ (l : List ℚ) (i : ℕ), i < l.length →
    l.getD i 0 ≤ l.getD (argmaxIdx l) 0
  | [], i, hi => absurd hi (by simp)
  | x :: xs, i, hi => by
    rw [argmaxIdx]
    split
    · rename_i hlt
      have hxs : xs ≠ [] := by
        intro he
        subst he
        simp [List.getD] at hlt
      have ht : argmaxIdx xs < xs.length := argmaxIdx_lt xs hxs
      have hgd : xs.getD (argmaxIdx xs) x = xs.getD (argmaxIdx xs) 0 := by
        rw [List.getD_eq_getElem xs x ht, List.getD_eq_getElem xs 0 ht]
      rw [List.getD_cons_succ]
      cases i with
      | zero =>
        rw [List.getD_cons_zero]
        rw [hgd] at hlt
        exact le_of_lt hlt
      | succ i' =>
        rw [List.getD_cons_succ]
        exact argmaxIdx_le xs i' (Nat.lt_of_succ_lt_succ hi)
    · rename_i hnlt
      rw [List.getD_cons_zero]
      cases i with
      | zero => simp
      | succ i' =>
        rw [List.getD_cons_succ]
        have hi' : i' < xs.length := Nat.lt_of_succ_lt_succ hi
        have hxs : xs ≠ [] := by
          intro he
          subst he
          exact absurd hi' (by simp)
        have ht : argmaxIdx xs < xs.length := argmaxIdx_lt xs hxs
        have hgd : xs.getD (argmaxIdx xs) x = xs.getD (argmaxIdx xs) 0 := by
          rw [List.getD_eq_getElem xs x ht, List.getD_eq_getElem xs 0 ht]
        calc xs.getD i' 0 ≤ xs.getD (argmaxIdx xs) 0 := argmaxIdx_le xs i' hi'
          _ = xs.getD (argmaxIdx xs) x := hgd.symm
          _ ≤ x := not_lt.mp hnlt

/-- Elements strictly before the arg-max index are strictly below the
maximum: the arg-max is the FIRST occurrence of the maximum. -/
lemma argmaxIdx_first : ∀ (l : List ℚ) (j : ℕ), j < argmaxIdx l →
    l.getD j 0 < l.getD (argmaxIdx l) 0
  | [], j, hj => absurd hj (by simp [argmaxIdx])
  | x :: xs, j, hj => by
    by_cases hlt : x < xs.getD (argmaxIdx xs) x
    · rw [argmaxIdx, if_pos hlt] at hj ⊢
      have hxs : xs ≠ [] := by
        intro he
        subst he
        simp [List.getD] at hlt
      have ht : argmaxIdx xs < xs.length := argmaxIdx_lt xs hxs
      have hgd : xs.getD (argmaxIdx xs) x = xs.getD (argmaxIdx xs) 0 := by
        rw [List.getD_eq_getElem xs x ht, List.getD_eq_getElem xs 0 ht]
      rw [List.getD_cons_succ]
      cases j with
      | zero =>
        rw [List.getD_cons_zero, ← hgd]
        exact hlt
      | succ j' =>
        rw [List.getD_cons_succ]
        exact argmaxIdx_first xs j' (Nat.lt_of_succ_lt_succ hj)
    · rw [argmaxIdx, if_neg hlt] at hj
      exact absurd hj (by simp)

/-! ### MUD Problem data model (spec §3, §4.3; core package not in the
available sources, so modelled from the spec) -/

/-- Modelled from the spec: the abstract error kinds of §7 for the core
estimator, whose implementation is not among the available sources. -/
inductive MudError where
  | invalidDomainError
  | dimensionMismatchError
  | insufficientSamplesError
  | degenerateDensityError
  | emptySampleSetError
  | shapeMismatchError
  deriving DecidableEq, Repr

/-- Modelled from the spec: the parameters (mean, variance) of a Gaussian
observed density (§4.3, "Observed density"). -/
structure GaussParams where
  mean : ℚ
  var : ℚ
  deriving DecidableEq, Repr

/-- Modelled from the spec (§6, External Interfaces): the density
estimation backend.  `kde samples weights` is the fitted kernel density
evaluator; `gaussPdf params` is the Gaussian density evaluator.  Both are
abstract function parameters, exactly as the spec treats them (the core
"depends on a kernel-density-estimation primitive" and a Gaussian pdf;
their transcendental values never matter to the structural claims). -/
structure Backend where
  kde : List ℚ → List ℚ → ℚ → ℚ
  gaussPdf : GaussParams → ℚ → ℚ

/-- Modelled from the spec: the construction inputs of a MUD Problem
(§4.3): domain, sample set `lam`, QoI predictions (N×M), noise standard
deviation `sd`, observed QoI values `qoi_true` (length M), observation
count `num_obs`, optional prior weights. -/
structure MudInput where
  domain : List (ℚ × ℚ)
  lam : List ℚ
  qoi : List (List ℚ)
  sd : ℚ
  qoi_true : List ℚ
  num_obs : ℕ
  weights : Option (List ℚ)
  deriving DecidableEq, Repr

/-- Modelled from the spec: a constructed MUD Problem instance.  The
fields `_r` and `_up` are the lazily cached ratio vector and updated
density vector of §4.3/§9 (the notebook reads the stored ratio back via
`mud_it._r`). -/
structure MudProblem where
  domain : List (ℚ × ℚ)
  lam : List ℚ
  qoi : List (List ℚ)
  sd : ℚ
  qoi_true : List ℚ
  num_obs : ℕ
  weights : List ℚ
  _r : Option (List ℚ)
  _up : Option (List ℚ)
  deriving DecidableEq, Repr

/-- Mean of a list of rationals (the example-specific summarization rule
singled out by the spec, §4.3/§9: "the sample mean of the M predicted
quantities"). -/
def meanList (xs : List ℚ) : ℚ := xs.sum / (xs.length : ℚ)

/-- Modelled from the spec: validating constructor for a MUD Problem
(§4.3 error conditions, §7 fail-fast policy): empty sample set and
prediction/weight shape mismatches are rejected at construction time;
absent weights default to uniform weight 1 (§3, Weights). -/
def mud_problem (inp : MudInput) : Except MudError MudProblem :=
  if inp.lam.length = 0 then .error .emptySampleSetError
  else if inp.qoi.length ≠ inp.lam.length then .error .shapeMismatchError
  else if ¬ (∀ row ∈ inp.qoi, row.length = inp.qoi_true.length) then
    .error .shapeMismatchError
  else if (inp.weights.getD (List.replicate inp.lam.length 1)).length
      ≠ inp.lam.length then .error .dimensionMismatchError
  else .ok ⟨inp.domain, inp.lam, inp.qoi, inp.sd, inp.qoi_true,
    inp.num_obs, inp.weights.getD (List.replicate inp.lam.length 1),
    none, none⟩

/-- Modelled from the spec: per-sample summarized QoI values (each
prediction row collapsed by the mean summarization rule). -/
def summarized (p : MudProblem) : List ℚ := p.qoi.map meanList

/-- Modelled from the spec: the parameters of the Gaussian observed
density `π_obs` (§4.3): mean characterized by the observed data, variance
`sd² / num_obs` (standard-error scaling). -/
def piObsParams (p : MudProblem) : GaussParams :=
  { mean := meanList p.qoi_true, var := p.sd ^ 2 / (p.num_obs : ℚ) }

/-- Modelled from the spec: the ratio vector
`r_i = weight_i * π_obs(Q(λ_i)) / π_pred(Q(λ_i))` (§3, Updated Ratio). -/
def computeR (B : Backend) (p : MudProblem) : List ℚ :=
  List.zipWith
    (fun w qi => w * B.gaussPdf (piObsParams p) qi
      / B.kde (summarized p) p.weights qi)
    p.weights (summarized p)

/-- Modelled from the spec: the updated density scores
`π_in(λ_i) * r_i` over the sample set (§4.3, `estimate()`), with `π_in`
the weighted initial density estimate of the λ-samples. -/
def computeUp (B : Backend) (p : MudProblem) (r : List ℚ) : List ℚ :=
  List.zipWith (fun li ri => B.kde p.lam p.weights li * ri) p.lam r

/-- Modelled from the spec (§9): the internal `solve()` step populating
the cached derived quantities on first access, guarded against
recomputation. -/
def solve (B : Backend) (p : MudProblem) : MudProblem :=
  match p._r, p._up with
  | some _, some _ => p
  | _, _ =>
    let r := computeR B p
    { p with _r := some r, _up := some (computeUp B p r) }

/-- Modelled from the spec: `estimate()` (§4.3) — the arg-max of the
updated density over the discrete sample set, returned together with the
(solved, cache-carrying) instance. -/
def estimate (B : Backend) (p : MudProblem) : ℚ × MudProblem :=
  let p2 := solve B p
  (p2.lam.getD (argmaxIdx (p2._up.getD [])) 0, p2)

/-- Facts holding of every successfully constructed MUD Problem: the
inputs are stored unchanged, the caches start empty, and all validated
shape invariants hold. -/
lemma mud_problem_ok (inp : MudInput) (p : MudProblem)
    (h : mud_problem inp = .ok p) :
    p.domain = inp.domain ∧ p.lam = inp.lam ∧ p.qoi = inp.qoi ∧
    p.sd = inp.sd ∧ p.qoi_true = inp.qoi_true ∧ p.num_obs = inp.num_obs ∧
    p._r = none ∧ p._up = none ∧
    p.lam.length ≠ 0 ∧ p.qoi.length = p.lam.length ∧
    p.weights.length = p.lam.length ∧
    (∀ row ∈ p.qoi, row.length = p.qoi_true.length) ∧
    p.weights = inp.weights.getD (List.replicate inp.lam.length 1) := by
  rw [mud_problem] at h
  split_ifs at h with h1 h2 h3 h4
  simp only [Except.ok.injEq] at h
  subst h
  refine ⟨rfl, rfl, rfl, rfl, rfl, rfl, rfl, rfl, h1, not_not.mp ?_,
    not_not.mp h4, ?_, rfl⟩
  · simpa using h2
  · simpa using h3

/-- Claim C5: construction of a MUD Problem fails fast on shape
mismatches (prediction rows vs. sample count, prediction columns vs.
observed-data length, weight length vs. sample count), fails with
`emptySampleSetError` on an empty sample set, and on success stores the
inputs unchanged — never truncating or broadcasting. -/
theorem mud_problem_validation (inp : MudInput) :
    (inp.lam.length = 0 → mud_problem inp = .error .emptySampleSetError) ∧
    (inp.lam.length ≠ 0 → inp.qoi.length ≠ inp.lam.length →
      mud_problem inp = .error .shapeMismatchError) ∧
    (inp.lam.length ≠ 0 → inp.qoi.length = inp.lam.length →
      (∃ row ∈ inp.qoi, row.length ≠ inp.qoi_true.length) →
      mud_problem inp = .error .shapeMismatchError) ∧
    (∀ p, mud_problem inp = .ok p →
      p.lam = inp.lam ∧ p.qoi = inp.qoi ∧ p.qoi_true = inp.qoi_true ∧
      p.qoi.length = p.lam.length ∧ p.weights.length = p.lam.length ∧
      ∀ row ∈ p.qoi, row.length = p.qoi_true.length) := by
  refine ⟨?_, ?_, ?_, ?_⟩
  · intro h0
    rw [mud_problem, if_pos h0]
  · intro h0 hq
    rw [mud_problem, if_neg h0, if_pos hq]
  · intro h0 hq hrow
    have hfail : ¬ (∀ row ∈ inp.qoi, row.length = inp.qoi_true.length) := by
      obtain ⟨row, hmem, hne⟩ := hrow
      intro hall
      exact hne (hall row hmem)
    rw [mud_problem, if_neg h0, if_neg (by simpa using hq), if_pos hfail]
  · intro p h
    obtain ⟨_, hl, hq, _, hqt, _, _, _, _, hql, hwl, hrow, _⟩ :=
      mud_problem_ok inp p h
    exact ⟨hl, hq, hqt, hql, hwl, hrow⟩

/-- Concrete inputs for the C5 witness: empty sample set, row-count
mismatch, and a successful construction. -/
def inpEmpty : MudInput := ⟨[(0, 1)], [], [], 1, [1], 3, none⟩

/-- Concrete input whose prediction matrix has the wrong row count. -/
def inpBadRows : MudInput := ⟨[(0, 1)], [0, 1], [[1]], 1, [1], 3, none⟩

/-- Concrete well-formed input. -/
def inpGood : MudInput :=
  ⟨[(0, 1)], [0, 1], [[1, 2], [3, 4]], 1, [1, 2], 3, none⟩

/-- Witness for C5: the validation behavior at concrete inputs. -/
theorem mud_problem_validation_witness :
    mud_problem inpEmpty = .error .emptySampleSetError ∧
    mud_problem inpBadRows = .error .shapeMismatchError ∧
    ∀ p, mud_problem inpGood = .ok p →
      p.lam = inpGood.lam ∧ p.qoi = inpGood.qoi ∧
      p.qoi_true = inpGood.qoi_true ∧ p.qoi.length = p.lam.length ∧
      p.weights.length = p.lam.length ∧
      ∀ row ∈ p.qoi, row.length = p.qoi_true.length :=
  ⟨(mud_problem_validation inpEmpty).1 (by decide),
   (mud_problem_validation inpBadRows).2.1 (by decide) (by decide),
   (mud_problem_validation inpGood).2.2.2⟩

/-- The ratio vector has one entry per sample. -/
lemma computeR_length (B : Backend) (p : MudProblem)
    (hq : p.qoi.length = p.lam.length)
    (hw : p.weights.length = p.lam.length) :
    (computeR B p).length = p.lam.length := by
  simp [computeR, summarized, hq, hw]

/-- The updated-density score vector has one entry per sample. -/
lemma computeUp_length (B : Backend) (p : MudProblem) (r : List ℚ)
    (hr : r.length = p.lam.length) :
    (computeUp B p r).length = p.lam.length := by
  simp [computeUp, hr]

/-- On an instance with empty caches, `solve` fills both caches with the
ratio vector and score vector. -/
lemma solve_fresh (B : Backend) (p : MudProblem) (hr : p._r = none)
    (hu : p._up = none) :
    solve B p = { p with _r := some (computeR B p),
                         _up := some (computeUp B p (computeR B p)) } := by
  rw [solve, hr, hu]

/-- Claim C1: for every successfully constructed MUD Problem (hence a
non-empty sample set), `estimate()` returns the sample at the discrete
arg-max of the scores `π_in(λ_i) * r_i`; the score at every index is
dominated by the score at the returned index, every index strictly
before it has a strictly smaller score (first-occurrence tie-break), and
each score is literally `π_in(λ_j) * r_j`. -/
theorem estimate_is_discrete_argmax (B : Backend) (inp : MudInput)
    (p : MudProblem) (h : mud_problem inp = .ok p) :
    ∃ i, i < p.lam.length ∧
      (estimate B p).1 = p.lam.getD i 0 ∧
      (∀ j < p.lam.length,
        (computeUp B p (computeR B p)).getD j 0
          ≤ (computeUp B p (computeR B p)).getD i 0) ∧
      (∀ j < i,
        (computeUp B p (computeR B p)).getD j 0
          < (computeUp B p (computeR B p)).getD i 0) ∧
      (∀ j < p.lam.length,
        (computeUp B p (computeR B p)).getD j 0
          = B.kde p.lam p.weights (p.lam.getD j 0)
              * (computeR B p).getD j 0) := by
  obtain ⟨_, _, _, _, _, _, hr0, hu0, hne, hql, hwl, _, _⟩ :=
    mud_problem_ok inp p h
  have hrl : (computeR B p).length = p.lam.length := computeR_length B p hql hwl
  have hul : (computeUp B p (computeR B p)).length = p.lam.length :=
    computeUp_length B p _ hrl
  have hscorene : computeUp B p (computeR B p) ≠ [] := by
    intro he
    rw [he] at hul
    exact hne hul.symm
  have hest : estimate B p
      = ((p.lam.getD (argmaxIdx (computeUp B p (computeR B p))) 0),
         { p with _r := some (computeR B p),
                  _up := some (computeUp B p (computeR B p)) }) := by
    rw [estimate, solve_fresh B p hr0 hu0]
    rfl
  refine ⟨argmaxIdx (computeUp B p (computeR B p)), ?_, ?_, ?_, ?_, ?_⟩
  · rw [← hul]
    exact argmaxIdx_lt _ hscorene
  · rw [hest]
  · intro j hj
    exact argmaxIdx_le _ j (by rw [hul]; exact hj)
  · intro j hj
    exact argmaxIdx_first _ j hj
  · intro j hj
    have hj2 : j < (computeUp B p (computeR B p)).length := by
      rw [hul]; exact hj
    have hj3 : j < (computeR B p).length := by rw [hrl]; exact hj
    rw [List.getD_eq_getElem _ 0 hj2, List.getD_eq_getElem _ 0 hj3,
      List.getD_eq_getElem _ 0 hj]
    simp only [computeUp, List.getElem_zipWith]

/-- Concrete backend used by witnesses: constant density evaluators. -/
def backendC : Backend := ⟨fun _ _ _ => 1, fun _ _ => 1⟩

/-- Concrete input for the C1 witness. -/
def inpC1 : MudInput :=
  ⟨[(0, 1)], [0, 1], [[1, 2], [3, 4]], 1, [1, 2], 3, none⟩

/-- The MUD Problem constructed from `inpC1`. -/
def probC1 : MudProblem :=
  ⟨[(0, 1)], [0, 1], [[1, 2], [3, 4]], 1, [1, 2], 3, [1, 1], none, none⟩

/-- Witness for C1: the arg-max characterization instantiated at a
concrete two-sample problem. -/
theorem estimate_is_discrete_argmax_witness :
    mud_problem inpC1 = .ok probC1 ∧
    ∃ i, i < probC1.lam.length ∧
      (estimate backendC probC1).1 = probC1.lam.getD i 0 ∧
      (∀ j < probC1.lam.length,
        (computeUp backendC probC1 (computeR backendC probC1)).getD j 0
          ≤ (computeUp backendC probC1 (computeR backendC probC1)).getD i 0) ∧
      (∀ j < i,
        (computeUp backendC probC1 (computeR backendC probC1)).getD j 0
          < (computeUp backendC probC1 (computeR backendC probC1)).getD i 0) ∧
      (∀ j < probC1.lam.length,
        (computeUp backendC probC1 (computeR backendC probC1)).getD j 0
          = backendC.kde probC1.lam probC1.weights (probC1.lam.getD j 0)
              * (computeR backendC probC1).getD j 0) :=
  ⟨by rfl, estimate_is_discrete_argmax backendC inpC1 probC1 (by rfl)⟩

/-- `solve` is idempotent: a solved instance carries both caches, so a
second `solve` is the identity. -/
lemma solve_idem (B : Backend) (p : MudProblem) :
    solve B (solve B p) = solve B p := by
  obtain ⟨dom, lam, qoi, sd, qt, m, w, r, u⟩ := p
  cases r <;> cases u <;> rfl

/-- Claim C6: calling `estimate()` twice on an unmodified instance
returns an identical result and an identical instance — the cached
derived quantities make the second call a pure read with no visible
recomputation side effects. -/
theorem estimate_idempotent_cached (B : Backend) (p : MudProblem) :
    estimate B (estimate B p).2 = estimate B p := by
  simp only [estimate]
  rw [solve_idem]

/-- Summing elementwise differences of equal-length lists telescopes to
the difference of the sums. -/
lemma sum_zipWith_sub : ∀ (d t : List ℚ), d.length = t.length →
    (List.zipWith (fun a b => a - b) d t).sum = d.sum - t.sum
  | [], [], _ => by simp
  | [], b :: t, h => by simp at h
  | a :: d, [], h => by simp at h
  | a :: d, b :: t, h => by
    simp only [List.zipWith_cons_cons, List.sum_cons]
    rw [sum_zipWith_sub d t (by simpa using h)]
    ring

/-- Modelled from the spec: the empirical mean discrepancy between the
observed data vector and a reference vector of true QoI values (§4.3,
"Observed density"). -/
def empiricalMeanDiscrepancy (d t : List ℚ) : ℚ :=
  meanList (List.zipWith (fun a b => a - b) d t)

/-- Modelled from the spec: the assumed true QoI mean (§4.3). -/
def trueQoIMean (t : List ℚ) : ℚ := meanList t

/-- Claim C7: for every constructed MUD Problem, the observed density
used in the ratio is the Gaussian whose mean is the empirical mean
discrepancy (w.r.t. any equal-length reference of assumed true QoI
values) plus the assumed true QoI mean, and whose variance is
`sd² / num_obs`. -/
theorem piObs_gaussian_params (inp : MudInput) (p : MudProblem)
    (_h : mud_problem inp = .ok p) (t : List ℚ)
    (ht : t.length = p.qoi_true.length) :
    (piObsParams p).mean
      = empiricalMeanDiscrepancy p.qoi_true t + trueQoIMean t ∧
    (piObsParams p).var = p.sd ^ 2 / (p.num_obs : ℚ) := by
  constructor
  · show meanList p.qoi_true = _
    rw [empiricalMeanDiscrepancy, trueQoIMean, meanList, meanList, meanList,
      sum_zipWith_sub p.qoi_true t ht.symm, List.length_zipWith, ht,
      min_self, div_add_div_same, sub_add_cancel]
  · rfl

/-- Concrete input for the C7 witness. -/
def inpC7 : MudInput :=
  ⟨[(0, 1)], [0, 1], [[1, 2], [3, 4]], 2, [1, 3], 4, none⟩

/-- The MUD Problem constructed from `inpC7`. -/
def probC7 : MudProblem :=
  ⟨[(0, 1)], [0, 1], [[1, 2], [3, 4]], 2, [1, 3], 4, [1, 1], none, none⟩

/-- Reference true-QoI vector for the C7 witness. -/
def tC7 : List ℚ := [1, 2]

/-- Witness for C7: the Gaussian parameter laws at a concrete problem. -/
theorem piObs_gaussian_params_witness :
    (piObsParams probC7).mean
      = empiricalMeanDiscrepancy probC7.qoi_true tC7 + trueQoIMean tC7 ∧
    (piObsParams probC7).var = probC7.sd ^ 2 / (probC7.num_obs : ℚ) :=
  piObs_gaussian_params inpC7 probC7 (by rfl) tC7 (by rfl)

/-! ### The notebook's data generator `exp_decay_one`
(embedded from `src/notebooks/Nonlinear_Examples.ipynb`) -/

/-- NumPy's `np.arange(start, stop, step)` for a rational step: the
`⌈(stop − start)/step⌉.toNat` points `start + i·step`. -/
def arange (start stop step : ℚ) : List ℚ :=
  (List.range (⌈(stop - start) / step⌉).toNat).map
    fun (i : ℕ) => start + (i : ℚ) * step

/-- Return value of `exp_decay_one` — measurement times, parameter
samples, the N×M prediction matrix and the noise-free observed
trajectory (bound to `qoi_true` at the notebook's call site). -/
structure ExpDecayResult where
  times : List ℚ
  lambda_samples : List ℚ
  predicted : List (List ℚ)
  qoi_true : List ℚ
  deriving DecidableEq, Repr

/-- The notebook's `exp_decay_one`, embedded from the source.  NumPy's
`np.exp` is the abstract parameter `E` (its transcendental values play
no role in the structural claims), and the random draws of
`uniform.rvs(size=num_samples)` are supplied as the list `unit_draws` of
unit-interval variates, which SciPy affinely transforms by
`loc = np.min(domain, axis=1)` and `scale = np.max(..) − np.min(..)`.
`u_t_lambda(t, l) = u_0 * exp(-outer(l, t))`; `times` is
`np.arange(t_start, time_range[1], 1/sampling_freq)[0:N]`; the returned
`true` vector is `u_t_lambda(times, lambda_true)[0]` — no noise is ever
added. -/
def exp_decay_one (E : ℚ → ℚ) (u_0 : ℚ) (time_range : ℚ × ℚ)
    (domain : List (ℚ × ℚ)) (lambda_true : ℚ) (N : ℕ) (t_start : ℚ)
    (sampling_freq : ℚ) (unit_draws : List ℚ) : ExpDecayResult :=
  let times := (arange t_start time_range.2 (1 / sampling_freq)).take N
  let u_t_lambda := fun (l : ℚ) => times.map fun t => u_0 * E (-(l * t))
  let mn := (domain.map fun ab => min ab.1 ab.2).headD 0
  let mx := (domain.map fun ab => max ab.1 ab.2).headD 0
  let lambda_samples := unit_draws.map fun u => mn + (mx - mn) * u
  { times := times
    lambda_samples := lambda_samples
    predicted := lambda_samples.map u_t_lambda
    qoi_true := u_t_lambda lambda_true }

/-- Claim C9: the prediction matrix of `exp_decay_one` has one row per
parameter sample, row `i` is the trajectory `u_0 · E(−λ_i·t)` over the
returned measurement times, every row (and the true vector) has as many
entries as there are measurement times, and the number of measurement
times is the minimum of the requested `N` and the number of sampling
instants of frequency `sf` available in `[ts, tr.2)`. -/
theorem exp_decay_one_shapes (E : ℚ → ℚ) (u_0 : ℚ) (tr : ℚ × ℚ)
    (dom : List (ℚ × ℚ)) (lam_true : ℚ) (N : ℕ) (ts sf : ℚ)
    (draws : List ℚ) :
    (exp_decay_one E u_0 tr dom lam_true N ts sf draws).predicted.length
      = draws.length ∧
    (∀ i, i < draws.length →
      (exp_decay_one E u_0 tr dom lam_true N ts sf draws).predicted.getD i []
        = (exp_decay_one E u_0 tr dom lam_true N ts sf draws).times.map
            fun t => u_0 * E (-(((exp_decay_one E u_0 tr dom lam_true N ts sf
              draws).lambda_samples.getD i 0) * t))) ∧
    (∀ row ∈ (exp_decay_one E u_0 tr dom lam_true N ts sf draws).predicted,
      row.length
        = (exp_decay_one E u_0 tr dom lam_true N ts sf draws).qoi_true.length) ∧
    (exp_decay_one E u_0 tr dom lam_true N ts sf draws).qoi_true.length
      = (exp_decay_one E u_0 tr dom lam_true N ts sf draws).times.length ∧
    (exp_decay_one E u_0 tr dom lam_true N ts sf draws).times.length
      = min N (⌈(tr.2 - ts) * sf⌉).toNat := by
  refine ⟨by simp [exp_decay_one], ?_, ?_, by simp [exp_decay_one], ?_⟩
  · intro i hi
    have hi2 : i < (exp_decay_one E u_0 tr dom lam_true N ts sf
        draws).predicted.length := by
      simpa [exp_decay_one] using hi
    have hi3 : i < (exp_decay_one E u_0 tr dom lam_true N ts sf
        draws).lambda_samples.length := by
      simpa [exp_decay_one] using hi
    rw [List.getD_eq_getElem _ [] hi2, List.getD_eq_getElem _ 0 hi3]
    simp only [exp_decay_one, List.getElem_map]
  · intro row hrow
    simp only [exp_decay_one, List.mem_map] at hrow
    obtain ⟨l, _, hl⟩ := hrow
    subst hl
    simp [exp_decay_one]
  · show ((arange ts tr.2 (1 / sf)).take N).length = _
    rw [List.length_take, arange, List.length_map, List.length_range, one_div,
      div_eq_mul_inv, inv_inv]

/-- Concrete result for the C9 witness. -/
def expDecayW : ExpDecayResult :=
  exp_decay_one (fun x => x) (3/4) (0, 10) [(0, 1)] (1/2) 3 0 (1/2) [0, 1]

/-- Witness for C9: the shape laws at concrete generator arguments. -/
theorem exp_decay_one_shapes_witness :
    expDecayW.predicted.length = 2 ∧
    expDecayW.predicted.getD 1 []
      = expDecayW.times.map
          (fun t => (3/4 : ℚ) * (fun x => x) (-((expDecayW.lambda_samples.getD 1 0) * t))) ∧
    expDecayW.times.length = min 3 (⌈((10 : ℚ) - 0) * (1/2)⌉).toNat := by
  have h := exp_decay_one_shapes (fun x => x) (3/4) (0, 10) [(0, 1)] (1/2) 3 0
    (1/2) [0, 1]
  exact ⟨h.1, h.2.1 1 (by decide), h.2.2.2.2⟩

/-- Claim C10: the observed vector returned by `exp_decay_one` is
exactly the noise-free model output `u_0 · E(−λ_true·t)` at each
measurement time (no noise is ever added — the generator does not even
receive the noise standard deviation), and the configured `sd`
influences only the observed-density variance of the constructed MUD
Problem, never its stored data. -/
theorem exp_decay_one_noise_free (E : ℚ → ℚ) (u_0 : ℚ) (tr : ℚ × ℚ)
    (dom : List (ℚ × ℚ)) (lam_true : ℚ) (N : ℕ) (ts sf : ℚ)
    (draws : List ℚ) :
    (exp_decay_one E u_0 tr dom lam_true N ts sf draws).qoi_true
      = (exp_decay_one E u_0 tr dom lam_true N ts sf draws).times.map
          (fun t => u_0 * E (-(lam_true * t))) ∧
    ∀ (inp : MudInput) (s1 s2 : ℚ) (p1 p2 : MudProblem),
      mud_problem { inp with sd := s1 } = .ok p1 →
      mud_problem { inp with sd := s2 } = .ok p2 →
      p1.qoi_true = p2.qoi_true ∧ p1.qoi = p2.qoi ∧ p1.lam = p2.lam ∧
      p1.weights = p2.weights ∧
      (piObsParams p1).mean = (piObsParams p2).mean ∧
      (piObsParams p1).var = s1 ^ 2 / (inp.num_obs : ℚ) := by
  constructor
  · rfl
  · intro inp s1 s2 p1 p2 h1 h2
    obtain ⟨_, hl1, hq1, hsd1, hqt1, hm1, _, _, _, _, _, _, hw1⟩ :=
      mud_problem_ok _ p1 h1
    obtain ⟨_, hl2, hq2, _, hqt2, _, _, _, _, _, _, _, hw2⟩ :=
      mud_problem_ok _ p2 h2
    refine ⟨by rw [hqt1, hqt2], by rw [hq1, hq2], by rw [hl1, hl2],
      hw1.trans hw2.symm, ?_, ?_⟩
    · show meanList p1.qoi_true = meanList p2.qoi_true
      rw [hqt1, hqt2]
    · show p1.sd ^ 2 / (p1.num_obs : ℚ) = s1 ^ 2 / (inp.num_obs : ℚ)
      rw [hsd1, hm1]

/-- Witness for C10: the noise-free law at concrete generator arguments
together with the sd-independence of the stored data at two concrete
constructions differing only in `sd`. -/
theorem exp_decay_one_noise_free_witness :
    expDecayW.qoi_true
      = expDecayW.times.map (fun t => (3/4 : ℚ) * (fun x => x) (-((1/2 : ℚ) * t))) ∧
    ∀ (p1 p2 : MudProblem),
      mud_problem { inpC1 with sd := 5 } = .ok p1 →
      mud_problem { inpC1 with sd := 7 } = .ok p2 →
      p1.qoi_true = p2.qoi_true ∧ p1.qoi = p2.qoi ∧ p1.lam = p2.lam ∧
      p1.weights = p2.weights ∧
      (piObsParams p1).mean = (piObsParams p2).mean ∧
      (piObsParams p1).var = (5 : ℚ) ^ 2 / ((inpC1.num_obs : ℕ) : ℚ) := by
  have h := exp_decay_one_noise_free (fun x => x) (3/4) (0, 10) [(0, 1)] (1/2)
    3 0 (1/2) [0, 1]
  exact ⟨h.1, fun p1 p2 h1 h2 => h.2 inpC1 5 7 p1 p2 h1 h2⟩

/-- Claim C8 counterexample: calling the notebook's generator with the
reversed domain pair `(1, 0)` (so the listed min exceeds the listed max)
does NOT fail — no `InvalidDomainError` exists anywhere in the code path;
samples are produced from the silently normalized pair. -/
theorem exp_decay_one_reversed_domain_counterexample :
    (exp_decay_one (fun x => x) (3/4) (0, 3) [(1, 0)] (1/2) 20 1 100
      [0, 1/2, 1]).lambda_samples = [0, 1/2, 1] := by
  show [0 + (0 ⊔ 1 - 0 ⊓ 1) * (0 : ℚ), 0 + (0 ⊔ 1 - 0 ⊓ 1) * (1/2 : ℚ),
    0 + (0 ⊔ 1 - 0 ⊓ 1) * (1 : ℚ)] = [0, 1/2, 1]
  norm_num

/-- Claim C8 (amended): `exp_decay_one` performs no domain validation;
it normalizes each pair via per-dimension `min`/`max`
(`np.min(domain, axis=1)`, `np.max(domain, axis=1)`) and always produces
one sample per draw, each lying in `[min a b, max a b]` — even when the
pair is reversed or degenerate. -/
theorem exp_decay_one_domain_normalized (E : ℚ → ℚ) (u_0 : ℚ) (tr : ℚ × ℚ)
    (a b : ℚ) (lam_true : ℚ) (N : ℕ) (ts sf : ℚ) (draws : List ℚ)
    (hd : ∀ u ∈ draws, 0 ≤ u ∧ u ≤ 1) :
    (exp_decay_one E u_0 tr [(a, b)] lam_true N ts sf draws).lambda_samples.length
      = draws.length ∧
    ∀ x ∈ (exp_decay_one E u_0 tr [(a, b)] lam_true N ts sf draws).lambda_samples,
      min a b ≤ x ∧ x ≤ max a b := by
  constructor
  · simp [exp_decay_one]
  · intro x hx
    simp only [exp_decay_one, List.map_cons, List.map_nil, List.headD_cons,
      List.mem_map] at hx
    obtain ⟨u, hu, hxu⟩ := hx
    obtain ⟨hu0, hu1⟩ := hd u hu
    subst hxu
    have hscale : 0 ≤ max a b - min a b := by
      have := min_le_max (a := a) (b := b)
      linarith
    constructor
    · nlinarith
    · nlinarith

/-- Witness for C8 (amended theorem): the normalization behaviour at the
concrete reversed pair `(1, 0)` with draws `0, 1/2, 1`. -/
theorem exp_decay_one_domain_normalized_witness :
    (exp_decay_one (fun x => x) (3/4) (0, 3) [(1, 0)] (1/2) 20 1 100
      [0, 1/2, 1]).lambda_samples.length = 3 ∧
    ∀ x ∈ (exp_decay_one (fun x => x) (3/4) (0, 3) [(1, 0)] (1/2) 20 1 100
      [0, 1/2, 1]).lambda_samples,
      min (1 : ℚ) 0 ≤ x ∧ x ≤ max (1 : ℚ) 0 :=
  exp_decay_one_domain_normalized (fun x => x) (3/4) (0, 3) 1 0 (1/2) 20 1 100
    [0, 1/2, 1] (by norm_num)

/-! ### The notebook's sequential batch loop
(embedded from `src/notebooks/Nonlinear_Examples.ipynb`, cell 11) -/

/-- One batch of observations for the sequential loop: a slice of the
prediction matrix (`qoi_it[i]`) with its slice of observed values
(`qoi_true_it[i]`). -/
structure BatchData where
  qoi : List (List ℚ)
  qoi_true : List ℚ
  deriving DecidableEq, Repr

/-- One iteration of the notebook's loop: build the MUD problem with the
incoming weights, call `estimate()`, and read the stored ratio vector
back through `mud_it._r` (exactly as the notebook does with
`weights = mud_it._r`). -/
def seqStep (B : Backend) (domain : List (ℚ × ℚ)) (lam : List ℚ) (sd : ℚ)
    (num_obs : ℕ) (weights : Option (List ℚ)) (b : BatchData) :
    Except MudError (ℚ × List ℚ) :=
  match mud_problem ⟨domain, lam, b.qoi, sd, b.qoi_true, num_obs, weights⟩ with
  | .error e => .error e
  | .ok p => .ok ((estimate B p).1, ((estimate B p).2)._r.getD [])

/-- The notebook's sequential loop, embedded with an explicit trace:
each successful iteration records the weights fed in, the estimate, and
the stored ratio vector; the next iteration receives `some` of that
ratio vector, and the loop halts at the first failing batch (spec §4.4
failure policy: earlier results remain). -/
def seqLoop (B : Backend) (domain : List (ℚ × ℚ)) (lam : List ℚ) (sd : ℚ)
    (num_obs : ℕ) (weights : Option (List ℚ)) :
    List BatchData → List (Option (List ℚ) × ℚ × List ℚ)
  | [] => []
  | b :: bs =>
    match seqStep B domain lam sd num_obs weights b with
    | .error _ => []
    | .ok rr =>
      (weights, rr.1, rr.2) :: seqLoop B domain lam sd num_obs (some rr.2) bs

/-- Default trace entry for out-of-range reads. -/
def seqDflt : Option (List ℚ) × ℚ × List ℚ := (none, 0, [])

/-- The first trace entry records exactly the initial weights. -/
lemma seqLoop_head_weights (B : Backend) (dom : List (ℚ × ℚ)) (lam : List ℚ)
    (sd : ℚ) (m : ℕ) :
    ∀ (bs : List BatchData) (w0 : Option (List ℚ)),
      0 < (seqLoop B dom lam sd m w0 bs).length →
      ((seqLoop B dom lam sd m w0 bs).getD 0 seqDflt).1 = w0
  | [], w0, h0 => absurd h0 (by simp [seqLoop])
  | b :: bs, w0, h0 => by
    cases hs : seqStep B dom lam sd m w0 b with
    | error e => simp [seqLoop, hs] at h0
    | ok rr => simp [seqLoop, hs]

/-- Weight propagation along the trace: entry `k+1` was fed exactly the
ratio vector stored by entry `k`. -/
lemma seqLoop_propagation (B : Backend) (dom : List (ℚ × ℚ)) (lam : List ℚ)
    (sd : ℚ) (m : ℕ) :
    ∀ (bs : List BatchData) (w0 : Option (List ℚ)) (k : ℕ),
      k + 1 < (seqLoop B dom lam sd m w0 bs).length →
      ((seqLoop B dom lam sd m w0 bs).getD (k + 1) seqDflt).1
        = some (((seqLoop B dom lam sd m w0 bs).getD k seqDflt).2.2)
  | [], w0, k, hk => by simp [seqLoop] at hk
  | b :: bs, w0, k, hk => by
    cases hs : seqStep B dom lam sd m w0 b with
    | error e =>
      rw [seqLoop] at hk
      simp [hs] at hk
    | ok rr =>
      rw [seqLoop] at hk ⊢
      simp only [hs] at hk ⊢
      cases k with
      | zero =>
        simp only [List.getD_cons_succ, List.getD_cons_zero]
        exact seqLoop_head_weights B dom lam sd m bs (some rr.2)
          (by simpa using hk)
      | succ k2 =>
        simp only [List.getD_cons_succ]
        exact seqLoop_propagation B dom lam sd m bs (some rr.2) k2
          (by simpa using hk)

/-- Claim C2: in the sequential loop, the weight vector supplied to batch
`k+1` is exactly (`some` of, element for element) the ratio vector
produced and stored by batch `k`; the first batch runs with the default
absent weights, which the constructor resolves to the uniform
weight-1 vector. -/
theorem seq_weight_propagation (B : Backend) (domain : List (ℚ × ℚ))
    (lam : List ℚ) (sd : ℚ) (m : ℕ) (bs : List BatchData) (k : ℕ)
    (hk : k + 1 < (seqLoop B domain lam sd m none bs).length) :
    ((seqLoop B domain lam sd m none bs).getD (k + 1) seqDflt).1
      = some (((seqLoop B domain lam sd m none bs).getD k seqDflt).2.2) ∧
    ((seqLoop B domain lam sd m none bs).getD 0 seqDflt).1 = none ∧
    (∀ (inp : MudInput) (p : MudProblem), inp.weights = none →
      mud_problem inp = .ok p →
      p.weights = List.replicate inp.lam.length 1) := by
  refine ⟨seqLoop_propagation B domain lam sd m bs none k hk, ?_, ?_⟩
  · exact seqLoop_head_weights B domain lam sd m bs none
      (Nat.lt_of_le_of_lt (Nat.zero_le _) hk)
  · intro inp p hw h
    obtain ⟨_, _, _, _, _, _, _, _, _, _, _, _, hwval⟩ := mud_problem_ok inp p h
    rw [hwval, hw]
    rfl

/-- Batches for the C2 witness. -/
def batchW1 : BatchData := ⟨[[1], [2]], [1]⟩

/-- Second batch for the C2 witness. -/
def batchW2 : BatchData := ⟨[[3], [4]], [2]⟩

/-- Witness for C2: the propagation law on a concrete two-batch run. -/
theorem seq_weight_propagation_witness :
    ((seqLoop backendC [(0, 1)] [0, 1] 1 3 none [batchW1, batchW2]).getD 1
        seqDflt).1
      = some (((seqLoop backendC [(0, 1)] [0, 1] 1 3 none
          [batchW1, batchW2]).getD 0 seqDflt).2.2) ∧
    ((seqLoop backendC [(0, 1)] [0, 1] 1 3 none [batchW1, batchW2]).getD 0
        seqDflt).1 = none ∧
    (∀ (inp : MudInput) (p : MudProblem), inp.weights = none →
      mud_problem inp = .ok p →
      p.weights = List.replicate inp.lam.length 1) :=
  seq_weight_propagation backendC [(0, 1)] [0, 1] 1 3 [batchW1, batchW2] 0
    (by decide)

end Mud
